import Mathlib

/-!
Shallow embedding of the NPP-Landscapes sampling engine
(src/sampling/problems.py and src/sampling/ils.py) and proofs about it.

Conventions of the embedding:
* Python ints are `Int`; index positions are `Nat`.
* A `Solution` is the pure record behind the Python `Solution` class
  (the dynamically added `weight` attribute of Knapsack is not used by
  any property below and is not modelled).
* Fallible code (IndexError, AssertionError, NotImplementedError) is
  modelled with `Option`: `none` means the Python call raises.
* Randomness is externalized: `random.randint(0, n-1)` consumes one
  value from a stream `s : Nat → Nat` at a cursor and reduces it mod n;
  `random.shuffle` becomes an explicitly passed order list.
* `copy.deepcopy` is the identity on these pure values.
-/

/-- The Python `Solution` class of ils.py: a list of symbols, a fitness
value and the staleness flag. -/
structure Solution where
  lst : List Int
  fitness : Int
  invalid : Bool
deriving DecidableEq, Repr

/-- The state of a concrete `ProblemInstance` after construction: the three
variants of problems.py with the instance attributes each one carries
(`OneMax.n`; `Knapsack.n`, capacity `c`, `items` as (id, value, weight)
triples; `NumberPartitioning.n` and the generated magnitudes `a`). -/
inductive ProbData where
  | oneMax (n : Nat)
  | knapsack (n : Nat) (c : Int) (items : List (Int × Int × Int))
  | numberPartitioning (n : Nat) (a : List Int)
deriving DecidableEq

/-- Truthiness of a Python value that is either a bool or `None`
(`None` is falsy). -/
def pyTruthy : Option Bool → Bool
  | none => false
  | some b => b

/-- The `maximize()` method per variant. `ProblemInstance.maximize` is an
abstract method whose body is `pass`; `Knapsack` returns `True` and
`NumberPartitioning` returns `False`, but `OneMax` declares no override,
so CPython refuses to instantiate the class and, were the inherited
abstract method invoked, it would return `None`; modelled as `none`. -/
def ProbData.maximize : ProbData → Option Bool
  | .oneMax _ => none
  | .knapsack _ _ _ => some true
  | .numberPartitioning _ _ => some false

/-- problems.py line 19-20: `a > b if self.maximize() else a < b`
(the condition is the truthiness of the value `maximize()` returns). -/
def ProbData.strictly_better (p : ProbData) (a b : Int) : Bool :=
  if pyTruthy p.maximize then decide (a > b) else decide (a < b)

/-- problems.py line 22-23: `a >= b if self.maximize() else a <= b`. -/
def ProbData.better_or_equal (p : ProbData) (a b : Int) : Bool :=
  if pyTruthy p.maximize then decide (a ≥ b) else decide (a ≤ b)

/-- The declared dimensionality `self.n` of each variant. -/
def ProbData.dim : ProbData → Nat
  | .oneMax n => n
  | .knapsack n _ _ => n
  | .numberPartitioning n _ => n

/-- problems.py line 52: `sum(sol.lst)`. -/
def oneMaxFitness (lst : List Int) : Int := lst.sum

/-- problems.py line 99: `sum([sol.lst[i] * self.items[i][2] for i in range(l)])`
(an item triple is (id, value, weight), so index 2 is the weight). -/
def knapsackWeight (items : List (Int × Int × Int)) (lst : List Int) : Int :=
  ((lst.zip items).map (fun q => q.1 * q.2.2.2)).sum

/-- problems.py line 103: the summed values of the selected items. -/
def knapsackValue (items : List (Int × Int × Int)) (lst : List Int) : Int :=
  ((lst.zip items).map (fun q => q.1 * q.2.2.1)).sum

/-- problems.py lines 99-103: fitness 0 when the weight exceeds the
capacity, else the summed value. -/
def knapsackFitness (items : List (Int × Int × Int)) (c : Int) (lst : List Int) : Int :=
  if knapsackWeight items lst > c then 0 else knapsackValue items lst

/-- problems.py lines 162-164: the absolute difference of the two
partition sums, written exactly as the source's conditional. -/
def nppFitness (a : List Int) (lst : List Int) : Int :=
  let cost1 := (((lst.zip a).filter (fun q => q.1 == 0)).map (fun q => q.2)).sum
  let cost2 := (((lst.zip a).filter (fun q => q.1 == 1)).map (fun q => q.2)).sum
  if cost1 > cost2 then cost1 - cost2 else cost2 - cost1

/-- The `full_eval` method per variant. `OneMax.full_eval` (lines 50-53)
performs no dimension check; `Knapsack.full_eval` (lines 96-106) and
`NumberPartitioning.full_eval` (lines 159-165) first run
`assert(l == self.n)` — an `AssertionError` is `none` — and then index
`self.items[i]` / `self.a[i]` for `i < l`, which raises `IndexError`
when that static list is shorter than `l`; the second conjunct of each
guard models that. -/
def ProbData.full_eval : ProbData → Solution → Option Solution
  | .oneMax _, sol =>
      some { sol with fitness := oneMaxFitness sol.lst, invalid := false }
  | .knapsack n c items, sol =>
      if sol.lst.length = n ∧ n ≤ items.length then
        some { sol with fitness := knapsackFitness items c sol.lst, invalid := false }
      else none
  | .numberPartitioning n a, sol =>
      if sol.lst.length = n ∧ n ≤ a.length then
        some { sol with fitness := nppFitness a sol.lst, invalid := false }
      else none

/-- The flip written `0 if x == 1 else 1` (ils.py line 88, problems.py
lines 77-78, 132-133, 188-189). -/
def flipVal01 (v : Int) : Int := if v = 1 then 0 else 1

/-- The flip written `1 if x == 0 else 0` (problems.py line 67). -/
def flipVal10 (v : Int) : Int := if v = 0 then 1 else 0

/-- problems.py: `has_flip_delta_eval` is `True` only for `OneMax`. -/
def ProbData.has_flip_delta_eval : ProbData → Bool
  | .oneMax _ => true
  | .knapsack _ _ _ => false
  | .numberPartitioning _ _ => false

/-- The `flip_delta_eval` method. `OneMax` (lines 59-62) reports
`delta = 1 if sol.lst[i] == 0 else -1` and `improved = delta > 0`;
the other variants raise `NotImplementedError`. -/
def ProbData.flip_delta_eval : ProbData → Solution → Nat → Option (Bool × Int)
  | .oneMax _, sol, i =>
      match sol.lst[i]? with
      | none => none
      | some v =>
          let d : Int := if v = 0 then 1 else -1
          some (decide (d > 0), d)
  | .knapsack _ _ _, _, _ => none
  | .numberPartitioning _ _, _, _ => none

/-- The `flip_with_delta` method. `OneMax` (lines 64-68) adds the delta to
the fitness, flips position `i` with `1 if x == 0 else 0` and clears
`invalid`; the other variants raise `NotImplementedError`. -/
def ProbData.flip_with_delta : ProbData → Solution → Nat → Int → Option Solution
  | .oneMax _, sol, i, d =>
      match sol.lst[i]? with
      | none => none
      | some v =>
          some { lst := sol.lst.set i (flipVal10 v), fitness := sol.fitness + d,
                 invalid := false }
  | .knapsack _ _ _, _, _, _ => none
  | .numberPartitioning _ _, _, _, _ => none

/-- ils.py lines 87-88: an independent copy of `sol` with position `i`
flipped via `0 if x == 1 else 1`. -/
def flipSol (sol : Solution) (i : Nat) : Option Solution :=
  match sol.lst[i]? with
  | none => none
  | some v => some { sol with lst := sol.lst.set i (flipVal01 v) }

/-- ils.py lines 87-89: flip position `i` on a copy and fully evaluate it. -/
def flipFullEval (p : ProbData) (sol : Solution) (i : Nat) : Option Solution :=
  match flipSol sol i with
  | none => none
  | some s2 => p.full_eval s2

/-- The mutable locals of the `for` loop in `flip_neighbour_explorer`
(ils.py lines 69-96): the last-assigned `improved` and `delta_fitness`,
and the tracked `best_delta_fitness`, `best_i`, `best_sol`. -/
structure ExpState where
  improved : Bool
  delta_fitness : Int
  best_delta : Int
  best_i : Nat
  best_sol : Solution
deriving DecidableEq

/-- One iteration of the loop body of `flip_neighbour_explorer`
(ils.py lines 77-96) at position `i`. The returned flag is `true` when
the body executes `break` (only in first-improvement mode, after an
improving position). In the delta path `improved` and `delta_fitness`
are reassigned on every iteration; in the full-evaluation path
`improved` is only ever set to `True`. -/
def expStep (p : ProbData) (sol : Solution) (first : Bool) (st : ExpState) (i : Nat) :
    Option (ExpState × Bool) :=
  if p.has_flip_delta_eval then
    match p.flip_delta_eval sol i with
    | none => none
    | some (impr, d) =>
        if impr then
          if p.strictly_better d st.best_delta then
            some ({ st with improved := impr, delta_fitness := d, best_delta := d, best_i := i }, first)
          else some ({ st with improved := impr, delta_fitness := d }, first)
        else some ({ st with improved := impr, delta_fitness := d }, false)
  else
    match flipFullEval p sol i with
    | none => none
    | some ns =>
        if p.strictly_better ns.fitness sol.fitness then
          if p.strictly_better ns.fitness st.best_sol.fitness then
            some ({ st with improved := true, best_sol := ns, best_i := i }, first)
          else some ({ st with improved := true }, first)
        else some (st, false)

/-- The `for i in indices` loop of `flip_neighbour_explorer` over the
remaining positions, stopping early when the body breaks. -/
def expLoop (p : ProbData) (sol : Solution) (first : Bool) :
    ExpState → List Nat → Option ExpState
  | st, [] => some st
  | st, i :: rest =>
      match expStep p sol first st i with
      | none => none
      | some (st2, true) => some st2
      | some (st2, false) => expLoop p sol first st2 rest

/-- ils.py lines 59-106, `flip_neighbour_explorer`. The positions list is
`range(len(sol.lst))`; `best_i = indices[0]` raises `IndexError` on an
empty solution (hence the length-0 guard yields `none`), and it is read
before the shuffle, so `best_i` starts at 0. In first-improvement mode
the loop runs over the externally supplied shuffled order `ord`;
otherwise over `range(n)` in index order. After the loop (lines 98-106):
with an improving last verdict the delta path applies `flip_with_delta`
to a copy of `sol` at `best_i` with the *last* `delta_fitness`, the
full-evaluation path returns `best_sol`; otherwise the input is returned
with `improved = False`. -/
def flip_neighbour_explorer (p : ProbData) (sol : Solution) (first : Bool)
    (ord : List Nat) : Option (Bool × Solution) :=
  if sol.lst.length = 0 then none
  else
    match expLoop p sol first ⟨false, 0, 0, 0, sol⟩
        (if first then ord else List.range sol.lst.length) with
    | none => none
    | some st =>
        if st.improved then
          if p.has_flip_delta_eval then
            match p.flip_with_delta sol st.best_i st.delta_fitness with
            | none => none
            | some ns => some (true, ns)
          else some (true, st.best_sol)
        else some (false, sol)

/-- ils.py lines 109-121, the hill climber `hc`: call the explorer, and
while it reports an improvement call it again on the returned solution.
Each call `k` uses the externally supplied shuffle order `orders k`.
The `fuel` argument bounds the number of explorer calls; `none` means
the source loop has not terminated within `fuel` calls (or an explorer
call raised). -/
def hcLoop (p : ProbData) (first : Bool) (orders : Nat → List Nat) :
    Nat → Solution → Nat → Option Solution
  | _, _, 0 => none
  | k, sol, fuel + 1 =>
      match flip_neighbour_explorer p sol first (orders k) with
      | none => none
      | some (improved, sol2) =>
          if improved then hcLoop p first orders (k + 1) sol2 fuel else some sol2

/-- The hill climber entry point (`hc(init_sol, ...)`). -/
def hc (p : ProbData) (first : Bool) (orders : Nat → List Nat)
    (init_sol : Solution) (fuel : Nat) : Option Solution :=
  hcLoop p first orders 0 init_sol fuel

/-- One call `random.randint(0, n - 1)` modelled on the draw stream `s`
at cursor `c`: the value is `s c % n` and the cursor advances. -/
def randDraw (s : Nat → Nat) (c n : Nat) : Nat × Nat := (s c % n, c + 1)

/-- The `j = i; while j == i: j = random.randint(0, self.n - 1)` loop
shared by every `two_rnd_flips` (problems.py lines 72-74, 129-131,
185-187): redraw until the draw differs from `i`. `none` when no
differing draw appears within `fuel` redraws (the source loop would
still be running). -/
def drawJ (s : Nat → Nat) (n i : Nat) : Nat → Nat → Option (Nat × Nat)
  | _, 0 => none
  | c, fuel + 1 =>
      let q := randDraw s c n
      if q.1 = i then drawJ s n i q.2 fuel else some (q.1, q.2)

/-- The `two_rnd_flips` method per variant, instrumented to also return
the two sampled positions and the final cursor. `OneMax` (lines 70-79)
computes an incremental delta from the pre-flip values, adds it to the
stored fitness, flips `i` then `j`, and clears `invalid`; `Knapsack`
(lines 123-134) and `NumberPartitioning` (lines 179-190) flip `i` then
`j` and run `full_eval`. Out-of-range list accesses are `none`. -/
def ProbData.two_rnd_flips (p : ProbData) (s : Nat → Nat) (c fuel : Nat)
    (sol : Solution) : Option (Nat × Nat × Solution × Nat) :=
  let q := randDraw s c p.dim
  match drawJ s p.dim q.1 q.2 fuel with
  | none => none
  | some (j, c2) =>
      match p with
      | .oneMax _ =>
          match sol.lst[q.1]?, sol.lst[j]? with
          | some vi, some vj =>
              let delta : Int := (if vi = 0 then 1 else -1) + (if vj = 0 then 1 else -1)
              let lst1 := sol.lst.set q.1 (flipVal01 vi)
              match lst1[j]? with
              | some w =>
                  some (q.1, j, ⟨lst1.set j (flipVal01 w), sol.fitness + delta, false⟩, c2)
              | none => none
          | _, _ => none
      | _ =>
          match sol.lst[q.1]? with
          | none => none
          | some vi =>
              let lst1 := sol.lst.set q.1 (flipVal01 vi)
              match lst1[j]? with
              | none => none
              | some w =>
                  match p.full_eval { sol with lst := lst1.set j (flipVal01 w) } with
                  | none => none
                  | some s2 => some (q.1, j, s2, c2)

/-- ils.py lines 167-174, the acceptance step of the ILS driver: when the
new local optimum `lo` is at least as good as `best_lo`, `best_lo` is
reassigned to a copy of `lo` *first*, and the strict-improvement test
then compares `lo.fitness` against the fitness of that fresh copy.
Returns the new `best_lo` and the new non-improvement counter. -/
def ils_acceptance (p : ProbData) (lo best_lo : Solution) (cnt : Nat) : Solution × Nat :=
  if p.better_or_equal lo.fitness best_lo.fitness then
    let best2 := lo
    if p.strictly_better lo.fitness best2.fitness then (best2, 0)
    else (best2, cnt + 1)
  else (best_lo, cnt + 1)

/-- ils.py lines 162-174, the `while non_improvement_cnt < non_impr_iters`
loop. The problem's `two_rnd_flips` on a copy of `best_lo` and the
`local_search` call are the driver's collaborators; per the capability
contract they return, so they enter as functions `perturb` and
`local_search` indexed by the iteration (externalized randomness). The
second component counts the loop iterations performed. Termination of
the recursion is exactly the driver's termination argument: the
acceptance step provably increments the counter (its reset branch
compares a fitness with itself). -/
def ilsLoop (p : ProbData) (perturb local_search : Nat → Solution → Solution)
    (k : Nat) (best_lo : Solution) (cnt budget : Nat) : Solution × Nat :=
  if _h : cnt < budget then
    match ilsLoop p perturb local_search (k + 1)
        (ils_acceptance p (local_search k (perturb k best_lo)) best_lo cnt).1
        (ils_acceptance p (local_search k (perturb k best_lo)) best_lo cnt).2 budget with
    | (b, it) => (b, it + 1)
  else (best_lo, 0)
termination_by budget - cnt
decreasing_by
  have h2 : (ils_acceptance p (local_search k (perturb k best_lo)) best_lo cnt).2
      = cnt + 1 := by
    have hir : ∀ x : Int, p.strictly_better x x = false := by
      intro x
      unfold ProbData.strictly_better
      split <;> simp
    unfold ils_acceptance
    split
    · simp [hir]
    · rfl
  omega

/-- ils.py lines 145-176, `ils`: hill-climb to a first local optimum,
set it as `best_lo`, run the acceptance loop with the counter at 0, and
return the best local optimum (paired here with the number of outer
iterations performed). The logger calls are pure side channels and are
not modelled. -/
def ils (p : ProbData) (perturb local_search : Nat → Solution → Solution)
    (sol : Solution) (non_impr_iters : Nat) : Solution × Nat :=
  ilsLoop p perturb local_search 1 (local_search 0 sol) 0 non_impr_iters

/-- Modelled from the spec: the variant list of §4.1 declares OneMax a
maximizing problem, so a fitness `a` is strictly better than `b` for
OneMax when `a > b`. This spec-side comparison is written out separately
because the source `OneMax` class never overrides the abstract
`maximize` method (see the C4 theorem), so the inherited
`strictly_better` does not realize it. -/
def oneMaxSpecStrictlyBetter (a b : Int) : Bool := decide (a > b)

/-- The objective value each variant's `full_eval` would assign to a
values list. -/
def probFitness : ProbData → List Int → Int
  | .oneMax _, lst => oneMaxFitness lst
  | .knapsack _ c items, lst => knapsackFitness items c lst
  | .numberPartitioning _ a, lst => nppFitness a lst

/-- Precondition under which the incremental `OneMax.two_rnd_flips`
keeps the fitness consistent: the stored fitness already matches the
values and the entries are bits. The other two variants re-run
`full_eval`, so they need nothing. -/
def wellFormedFor : ProbData → Solution → Prop
  | .oneMax _, sol => sol.fitness = oneMaxFitness sol.lst ∧ ∀ x ∈ sol.lst, x = 0 ∨ x = 1
  | .knapsack _ _ _, _ => True
  | .numberPartitioning _ _, _ => True

/-- Position `i` of `sol` is examined without error by the explorer's
loop body and found non-improving: in the delta path `flip_delta_eval`
reports `improved = False`, in the full-evaluation path the flipped,
re-evaluated copy is not strictly better than the input. -/
def flipNotImproving (p : ProbData) (sol : Solution) (i : Nat) : Prop :=
  if p.has_flip_delta_eval then
    ∃ d : Int, p.flip_delta_eval sol i = some (false, d)
  else
    ∃ ns : Solution, flipFullEval p sol i = some ns ∧
      p.strictly_better ns.fitness sol.fitness = false

/-! ## Theorems -/

/-- Neither comparison branch of `strictly_better` accepts a value
against itself, whatever `maximize()` returned. -/
theorem strictly_better_self (p : ProbData) (x : Int) :
    p.strictly_better x x = false := by
  unfold ProbData.strictly_better
  split <;> simp

/-- The acceptance step always leaves the counter at `cnt + 1`: its reset
branch compares `lo.fitness` with the fitness of the copy of `lo` that
has just replaced `best_lo`. -/
theorem ils_acceptance_snd (p : ProbData) (lo best_lo : Solution) (cnt : Nat) :
    (ils_acceptance p lo best_lo cnt).2 = cnt + 1 := by
  unfold ils_acceptance
  split
  · simp [strictly_better_self]
  · rfl

/-- The ILS loop performs exactly `budget - cnt` iterations. -/
theorem ilsLoop_snd (p : ProbData) (perturb local_search : Nat → Solution → Solution) :
    ∀ (d k : Nat) (best_lo : Solution) (cnt budget : Nat), budget - cnt ≤ d →
      (ilsLoop p perturb local_search k best_lo cnt budget).2 = budget - cnt := by
  intro d
  induction d with
  | zero =>
      intro k best_lo cnt budget hd
      rw [ilsLoop]
      have hnot : ¬ cnt < budget := by omega
      rw [dif_neg hnot]
      omega
  | succ d ih =>
      intro k best_lo cnt budget hd
      rw [ilsLoop]
      by_cases hlt : cnt < budget
      · rw [dif_pos hlt]
        have hsnd := ils_acceptance_snd p (local_search k (perturb k best_lo)) best_lo cnt
        have hrec := ih (k + 1)
            (ils_acceptance p (local_search k (perturb k best_lo)) best_lo cnt).1
            (ils_acceptance p (local_search k (perturb k best_lo)) best_lo cnt).2 budget
            (by omega)
        cases hx : ilsLoop p perturb local_search (k + 1)
            (ils_acceptance p (local_search k (perturb k best_lo)) best_lo cnt).1
            (ils_acceptance p (local_search k (perturb k best_lo)) best_lo cnt).2 budget with
        | mk b it =>
            rw [hx] at hrec
            have hit : it = budget -
                (ils_acceptance p (local_search k (perturb k best_lo)) best_lo cnt).2 := hrec
            show it + 1 = budget - cnt
            omega
      · rw [dif_neg hlt]
        omega

/-- C1: with best-improvement mode on a delta-evaluation problem, the
explorer's final `improved` flag holds only the verdict of the last
scanned index, so an improving flip seen earlier is forgotten. On the
evaluated OneMax solution `[0, 1]` the flip at position 0 improves
(`flip_delta_eval` reports `(True, +1)`, and applying it would give the
fitness-2 solution `[1, 1]` the claim requires), yet the explorer
returns `found_improvement = False` with the input unchanged. -/
theorem c1_best_mode_forgets_improving_flip :
    flip_neighbour_explorer (ProbData.oneMax 2) ⟨[0, 1], 1, false⟩ false []
      = some (false, ⟨[0, 1], 1, false⟩) ∧
    ProbData.flip_delta_eval (ProbData.oneMax 2) ⟨[0, 1], 1, false⟩ 0 = some (true, 1) ∧
    ProbData.flip_with_delta (ProbData.oneMax 2) ⟨[0, 1], 1, false⟩ 0 1
      = some ⟨[1, 1], 2, false⟩ := by
  decide

/-- C2: in the ILS acceptance step the strict-improvement test compares
a fitness against itself (the already-updated best), so it is always
false, the counter is never reset through that branch, and every
iteration leaves the counter at exactly `cnt + 1`; on acceptance the new
best is the copy of `lo`. -/
theorem c2_acceptance_counter_always_increments (p : ProbData)
    (lo best_lo : Solution) (cnt : Nat) :
    p.strictly_better lo.fitness lo.fitness = false ∧
    (ils_acceptance p lo best_lo cnt).2 = cnt + 1 ∧
    (p.better_or_equal lo.fitness best_lo.fitness = true →
      (ils_acceptance p lo best_lo cnt).1 = lo) := by
  refine ⟨strictly_better_self p lo.fitness, ils_acceptance_snd p lo best_lo cnt, ?_⟩
  intro hb
  unfold ils_acceptance
  simp [hb, strictly_better_self]

/-- Witness for C2 at a concrete accepted local optimum. -/
theorem c2_witness :
    (ils_acceptance (ProbData.numberPartitioning 1 [2]) ⟨[1], 2, false⟩ ⟨[0], 3, false⟩ 7).2 = 8 ∧
    (ils_acceptance (ProbData.numberPartitioning 1 [2]) ⟨[1], 2, false⟩ ⟨[0], 3, false⟩ 7).1
      = ⟨[1], 2, false⟩ :=
  ⟨(c2_acceptance_counter_always_increments (ProbData.numberPartitioning 1 [2])
      ⟨[1], 2, false⟩ ⟨[0], 3, false⟩ 7).2.1,
   (c2_acceptance_counter_always_increments (ProbData.numberPartitioning 1 [2])
      ⟨[1], 2, false⟩ ⟨[0], 3, false⟩ 7).2.2 (by decide)⟩

/-- C3 counterexample: on a length-0 solution the explorer does not
complete normally — `best_i = indices[0]` raises `IndexError` — so the
claimed return `(False, original)` never happens. -/
theorem c3_empty_solution_raises :
    flip_neighbour_explorer (ProbData.oneMax 0) ⟨[], 0, false⟩ true [] = none := by
  decide

/-- C3 amended: for every problem variant, fitness, staleness flag,
improvement mode and shuffle order, calling the explorer on an empty
solution raises (models `indices[0]` on the empty index list) instead of
returning `found_improvement = False`. -/
theorem c3_amended_empty_solution_always_raises (p : ProbData) (f : Int)
    (inv first : Bool) (ord : List Nat) :
    flip_neighbour_explorer p ⟨[], f, inv⟩ first ord = none := by
  rfl

/-- C4: `OneMax` never overrides the abstract `maximize`, so — contrary
to the claim — its inherited comparison helpers run on the truthiness of
`None` and take the minimizing branch: `strictly_better(1, 0)` and
`better_or_equal(1, 0)` are both `False` where the claim requires
`1 > 0` and `1 >= 0` to make them `True`. The Knapsack and
NumberPartitioning halves of the claim do hold. -/
theorem c4_onemax_maximize_not_provided :
    ProbData.maximize (ProbData.oneMax 5) = none ∧
    ProbData.strictly_better (ProbData.oneMax 5) 1 0 = false ∧
    ProbData.better_or_equal (ProbData.oneMax 5) 1 0 = false ∧
    ProbData.maximize (ProbData.knapsack 1 0 [(1, 2, 3)]) = some true ∧
    ProbData.maximize (ProbData.numberPartitioning 1 [2]) = some false := by
  decide

/-- C5 counterexample: `OneMax.full_eval` has no dimension assert, so on
a length-0 solution against a dimension-3 OneMax instance it returns
normally (summing the empty list) instead of being fatal. -/
theorem c5_onemax_no_dimension_check :
    ProbData.full_eval (ProbData.oneMax 3) ⟨[], 0, true⟩ = some ⟨[], 0, false⟩ := by
  decide

/-- C5 amended: the dimension-mismatch assert exists only in Knapsack
and NumberPartitioning, where a wrong-length solution makes `full_eval`
fatal; OneMax performs no such check. -/
theorem c5_amended_dimension_fatal_without_onemax (sol : Solution) (n : Nat)
    (c : Int) (items : List (Int × Int × Int)) (a : List Int)
    (hne : sol.lst.length ≠ n) :
    ProbData.full_eval (ProbData.knapsack n c items) sol = none ∧
    ProbData.full_eval (ProbData.numberPartitioning n a) sol = none := by
  constructor <;> simp [ProbData.full_eval, hne]

/-- Witness for C5 at a concrete wrong-length solution. -/
theorem c5_witness :
    ([] : List Int).length ≠ 1 ∧
    ProbData.full_eval (ProbData.knapsack 1 0 [(1, 2, 3)]) ⟨[], 0, false⟩ = none ∧
    ProbData.full_eval (ProbData.numberPartitioning 1 [2]) ⟨[], 0, false⟩ = none :=
  ⟨by decide,
   (c5_amended_dimension_fatal_without_onemax ⟨[], 0, false⟩ 1 0 [(1, 2, 3)] [2] (by decide)).1,
   (c5_amended_dimension_fatal_without_onemax ⟨[], 0, false⟩ 1 0 [(1, 2, 3)] [2] (by decide)).2⟩

/-- C7: the ILS driver halts for every problem instance, initial
solution and budget (the recursion in `ilsLoop` is well founded because
the acceptance step provably increments the counter), and its loop runs
at most `non_impr_iters + 1` iterations after the first local optimum
(in fact exactly `non_impr_iters`). -/
theorem c7_ils_iteration_bound (p : ProbData)
    (perturb local_search : Nat → Solution → Solution) (sol : Solution)
    (non_impr_iters : Nat) :
    (ils p perturb local_search sol non_impr_iters).2 ≤ non_impr_iters + 1 := by
  unfold ils
  rw [ilsLoop_snd p perturb local_search non_impr_iters 1 (local_search 0 sol) 0
      non_impr_iters (by omega)]
  omega

/-- C10: on the evaluated OneMax solution `[0, 0]` the first-improvement
explorer returns the strictly improved solution `[1, 0]` of fitness 1,
yet the problem's own `better_or_equal(1, 0)` is `False`, because
`OneMax` inherits no `maximize` and the comparison falls into the
minimizing branch — the claimed invariant fails on the code as written,
though the returned fitness did increase as the spec intends. -/
theorem c10_first_improvement_vs_better_or_equal :
    flip_neighbour_explorer (ProbData.oneMax 2) ⟨[0, 0], 0, false⟩ true [0, 1]
      = some (true, ⟨[1, 0], 1, false⟩) ∧
    ProbData.better_or_equal (ProbData.oneMax 2) 1 0 = false := by
  decide

/-- Setting position `i` changes a list sum by the difference of the new
and old entries. -/
theorem sum_set_int (l : List Int) :
    ∀ (i : Nat) (v : Int) (h : i < l.length),
      (l.set i v).sum = l.sum - l.get ⟨i, h⟩ + v := by
  induction l with
  | nil => intro i v h; simp at h
  | cons x xs ih =>
      intro i v h
      cases i with
      | zero =>
          simp [List.set]
          ring
      | succ i =>
          have hi : i < xs.length := by simpa using h
          simp only [List.set, List.sum_cons, ih i v hi, List.get_cons_succ]
          ring

/-- Facts packaged from a successful optional list access. -/
theorem getElem?_facts (l : List Int) (i : Nat) (v : Int) (h : l[i]? = some v) :
    ∃ hi : i < l.length, l.get ⟨i, hi⟩ = v ∧ v ∈ l := by
  have hi : i < l.length := by
    by_contra hge
    rw [List.getElem?_eq_none (by omega)] at h
    cases h
  have h2 : l[i] = v := by
    have h3 := List.getElem?_eq_getElem hi
    rw [h3] at h
    exact Option.some.inj h
  exact ⟨hi, h2, h2 ▸ List.getElem_mem hi⟩

/-- C8: for OneMax, `flip_delta_eval` at a valid position of an
evaluated bitstring reports exactly the signed fitness change that fully
re-evaluating an independent flipped copy exhibits, and its `improved`
verdict is exactly the spec's maximizing strictly-better comparison of
the flipped copy's fitness against the original's. -/
theorem c8_delta_matches_full_reevaluation (n : Nat) (sol : Solution) (i : Nat)
    (impr : Bool) (d : Int) (flipped evaled : Solution)
    (h01 : ∀ x ∈ sol.lst, x = 0 ∨ x = 1)
    (heval : sol.fitness = oneMaxFitness sol.lst)
    (hdelta : ProbData.flip_delta_eval (ProbData.oneMax n) sol i = some (impr, d))
    (hflip : flipSol sol i = some flipped)
    (hfull : ProbData.full_eval (ProbData.oneMax n) flipped = some evaled) :
    d = evaled.fitness - sol.fitness ∧
    impr = oneMaxSpecStrictlyBetter evaled.fitness sol.fitness := by
  simp only [ProbData.flip_delta_eval] at hdelta
  unfold flipSol at hflip
  cases hv : sol.lst[i]? with
  | none => rw [hv] at hdelta; cases hdelta
  | some v =>
      rw [hv] at hdelta hflip
      obtain ⟨hi, hget, hmem⟩ := getElem?_facts sol.lst i v hv
      simp only [Option.some.injEq, Prod.mk.injEq] at hdelta
      obtain ⟨himpr, hd⟩ := hdelta
      have hflipped : flipped = { sol with lst := sol.lst.set i (flipVal01 v) } := by
        injection hflip with h2
        exact h2.symm
      rw [hflipped] at hfull
      simp only [ProbData.full_eval] at hfull
      have hevaled : evaled.fitness = (sol.lst.set i (flipVal01 v)).sum := by
        injection hfull with h2
        rw [← h2]
        rfl
      have hsum := sum_set_int sol.lst i (flipVal01 v) hi
      rw [hget] at hsum
      rcases h01 v hmem with h0 | h1
      · subst h0
        constructor
        · rw [← hd, hevaled, hsum, heval]
          unfold oneMaxFitness flipVal01
          norm_num
        · rw [← himpr, hevaled, hsum, heval]
          unfold oneMaxSpecStrictlyBetter oneMaxFitness flipVal01
          norm_num
      · subst h1
        constructor
        · rw [← hd, hevaled, hsum, heval]
          unfold oneMaxFitness flipVal01
          norm_num
        · rw [← himpr, hevaled, hsum, heval]
          unfold oneMaxSpecStrictlyBetter oneMaxFitness flipVal01
          norm_num

/-- Witness for C8 on the evaluated bitstring `[0, 1]` at position 0:
the reported delta `+1` is the full re-evaluation difference `2 - 1`,
and the `True` verdict matches `2 > 1`. -/
theorem c8_witness :
    (1 : Int) = 2 - 1 ∧ true = oneMaxSpecStrictlyBetter 2 1 :=
  c8_delta_matches_full_reevaluation 2 ⟨[0, 1], 1, false⟩ 0 true 1
    ⟨[1, 1], 1, false⟩ ⟨[1, 1], 2, false⟩ (by decide) (by decide) (by decide)
    (by decide) (by decide)

/-- The redraw loop only ever returns a draw different from `i`. -/
theorem drawJ_ne (s : Nat → Nat) (n i : Nat) :
    ∀ (fuel c j c2 : Nat), drawJ s n i c fuel = some (j, c2) → j ≠ i := by
  intro fuel
  induction fuel with
  | zero =>
      intro c j c2 h
      simp [drawJ] at h
  | succ fuel ih =>
      intro c j c2 h
      simp only [drawJ] at h
      by_cases hq : (randDraw s c n).1 = i
      · rw [if_pos hq] at h
        exact ih _ _ _ h
      · rw [if_neg hq] at h
        simp only [Option.some.injEq, Prod.mk.injEq] at h
        obtain ⟨hj, -⟩ := h
        rw [← hj]
        exact hq

/-- C9 counterexample: `OneMax.two_rnd_flips` adjusts the *stored*
fitness incrementally, so on a stale solution (`[0, 0]` carrying fitness
5) it returns with `invalid = False` but fitness 7, while the objective
value of the modified values `[1, 1]` is 2 — the claimed "fitness
reflects the modified values" fails. -/
theorem c9_stale_onemax_perturbation_misevaluates :
    ProbData.two_rnd_flips (ProbData.oneMax 2) (fun c => c) 0 5 ⟨[0, 0], 5, false⟩
      = some (0, 1, ⟨[1, 1], 7, false⟩, 2) ∧
    probFitness (ProbData.oneMax 2) [1, 1] = 2 ∧
    (7 : Int) ≠ 2 ∧ (⟨[1, 1], 7, false⟩ : Solution).invalid = false := by
  decide

/-- A successful `full_eval` keeps the values, clears `invalid`, and
writes the variant's objective value of those values as the fitness. -/
theorem full_eval_props (p : ProbData) (s0 s2 : Solution)
    (h : p.full_eval s0 = some s2) :
    s2.lst = s0.lst ∧ s2.invalid = false ∧ s2.fitness = probFitness p s0.lst := by
  cases p with
  | oneMax n =>
      simp only [ProbData.full_eval] at h
      injection h with h2
      rw [← h2]
      exact ⟨rfl, rfl, rfl⟩
  | knapsack n cap items =>
      simp only [ProbData.full_eval] at h
      split at h
      · injection h with h2
        rw [← h2]
        exact ⟨rfl, rfl, rfl⟩
      · cases h
  | numberPartitioning n a =>
      simp only [ProbData.full_eval] at h
      split at h
      · injection h with h2
        rw [← h2]
        exact ⟨rfl, rfl, rfl⟩
      · cases h

/-- Sum of a bitstring after the two flips of `OneMax.two_rnd_flips`:
it moves by exactly the incremental delta the method computes. -/
theorem oneMax_two_flip_sum (lst : List Int) (q1 j0 : Nat) (vi vj w : Int)
    (hne : j0 ≠ q1)
    (hvi : lst[q1]? = some vi) (hvj : lst[j0]? = some vj)
    (h01 : ∀ x ∈ lst, x = 0 ∨ x = 1)
    (hw : (lst.set q1 (flipVal01 vi))[j0]? = some w) :
    ((lst.set q1 (flipVal01 vi)).set j0 (flipVal01 w)).sum
      = lst.sum + ((if vi = 0 then 1 else -1) + (if vj = 0 then (1 : Int) else -1)) := by
  have hwvj : w = vj := by
    rw [List.getElem?_set_ne (Ne.symm hne), hvj] at hw
    exact (Option.some.inj hw).symm
  obtain ⟨hq1, hgetq1, hmemq1⟩ := getElem?_facts lst q1 vi hvi
  obtain ⟨-, -, hmemj0⟩ := getElem?_facts lst j0 vj hvj
  obtain ⟨hj0lt, hgetw, -⟩ := getElem?_facts (lst.set q1 (flipVal01 vi)) j0 w hw
  have hs1 := sum_set_int lst q1 (flipVal01 vi) hq1
  have hs2 := sum_set_int (lst.set q1 (flipVal01 vi)) j0 (flipVal01 w) hj0lt
  rw [hs1, hgetq1, hgetw] at hs2
  rw [hs2, hwvj]
  rcases h01 vi hmemq1 with h | h <;> rcases h01 vj hmemj0 with h2 | h2 <;>
    rw [h, h2] <;> simp [flipVal01] <;> ring

/-- C9 amended: whenever a variant's `two_rnd_flips` returns (the redraw
loop found a second index), the two sampled positions are distinct and
the result carries `invalid = false` with a fitness equal to the
variant's objective on the modified values — provided that for OneMax,
which adjusts the fitness incrementally, the input was already correctly
evaluated with 0/1 entries (Knapsack and NumberPartitioning re-run
`full_eval` and need no such precondition). -/
theorem c9_amended_two_rnd_flips_distinct_evaluated (p : ProbData) (s : Nat → Nat)
    (c fuel : Nat) (sol : Solution) (i j : Nat) (sol2 : Solution) (c2 : Nat)
    (hwf : wellFormedFor p sol)
    (hrun : p.two_rnd_flips s c fuel sol = some (i, j, sol2, c2)) :
    i ≠ j ∧ sol2.invalid = false ∧ sol2.fitness = probFitness p sol2.lst := by
  cases p with
  | oneMax n =>
      have hwf2 : sol.fitness = oneMaxFitness sol.lst ∧ ∀ x ∈ sol.lst, x = 0 ∨ x = 1 := hwf
      obtain ⟨hfit, h01⟩ := hwf2
      simp only [ProbData.two_rnd_flips, ProbData.dim] at hrun
      split at hrun
      · cases hrun
      · rename_i j0 c0 hdj
        have hne : j0 ≠ (randDraw s c n).1 := drawJ_ne s n _ fuel _ j0 c0 hdj
        split at hrun
        · rename_i vi vj hvi hvj
          split at hrun
          · rename_i w hw
            simp only [Option.some.injEq, Prod.mk.injEq] at hrun
            obtain ⟨hieq, hjeq, hsoleq, -⟩ := hrun
            subst hieq
            subst hjeq
            rw [← hsoleq]
            refine ⟨Ne.symm hne, rfl, ?_⟩
            simp only [probFitness, oneMaxFitness]
            rw [oneMax_two_flip_sum sol.lst (randDraw s c n).1 j0 vi vj w hne hvi hvj h01 hw]
            rw [hfit]
            simp only [oneMaxFitness]
          · cases hrun
        · cases hrun
  | knapsack n cap items =>
      simp only [ProbData.two_rnd_flips, ProbData.dim] at hrun
      split at hrun
      · cases hrun
      · rename_i j0 c0 hdj
        have hne : j0 ≠ (randDraw s c n).1 := drawJ_ne s n _ fuel _ j0 c0 hdj
        split at hrun
        · cases hrun
        · rename_i vi hvi
          split at hrun
          · cases hrun
          · rename_i w hw
            split at hrun
            · cases hrun
            · rename_i s2 hfe
              simp only [Option.some.injEq, Prod.mk.injEq] at hrun
              obtain ⟨hieq, hjeq, hsoleq, -⟩ := hrun
              subst hieq
              subst hjeq
              rw [← hsoleq]
              obtain ⟨hlst, hinv, hfitn⟩ :=
                full_eval_props (ProbData.knapsack n cap items) _ s2 hfe
              refine ⟨Ne.symm hne, hinv, ?_⟩
              rw [hfitn, hlst]
  | numberPartitioning n a =>
      simp only [ProbData.two_rnd_flips, ProbData.dim] at hrun
      split at hrun
      · cases hrun
      · rename_i j0 c0 hdj
        have hne : j0 ≠ (randDraw s c n).1 := drawJ_ne s n _ fuel _ j0 c0 hdj
        split at hrun
        · cases hrun
        · rename_i vi hvi
          split at hrun
          · cases hrun
          · rename_i w hw
            split at hrun
            · cases hrun
            · rename_i s2 hfe
              simp only [Option.some.injEq, Prod.mk.injEq] at hrun
              obtain ⟨hieq, hjeq, hsoleq, -⟩ := hrun
              subst hieq
              subst hjeq
              rw [← hsoleq]
              obtain ⟨hlst, hinv, hfitn⟩ :=
                full_eval_props (ProbData.numberPartitioning n a) _ s2 hfe
              refine ⟨Ne.symm hne, hinv, ?_⟩
              rw [hfitn, hlst]

/-- Witness for C9 on an evaluated OneMax solution: the perturbation
picks the distinct positions 0 and 1 and hands back a correctly
evaluated solution. -/
theorem c9_witness :
    (0 : Nat) ≠ 1 ∧ (⟨[1, 1], 2, false⟩ : Solution).invalid = false ∧
    (⟨[1, 1], 2, false⟩ : Solution).fitness
      = probFitness (ProbData.oneMax 2) (⟨[1, 1], 2, false⟩ : Solution).lst :=
  c9_amended_two_rnd_flips_distinct_evaluated (ProbData.oneMax 2) (fun c => c) 0 5
    ⟨[0, 0], 0, false⟩ 0 1 ⟨[1, 1], 2, false⟩ 2 ⟨by decide, by decide⟩ (by decide)

/-- In first-improvement mode a loop-body step either breaks having just
set `improved`, or continues having found position `i` non-improving
(and then it never turns `improved` on). -/
theorem expStep_first_cases (p : ProbData) (sol : Solution) (st st2 : ExpState)
    (i : Nat) (brk : Bool) (h : expStep p sol true st i = some (st2, brk)) :
    (brk = true ∧ st2.improved = true) ∨
    (brk = false ∧ flipNotImproving p sol i ∧
      (st.improved = false → st2.improved = false)) := by
  unfold expStep at h
  split at h
  · rename_i hdelta
    split at h
    · cases h
    · rename_i impr d hfd
      split at h
      · rename_i himpr
        split at h
        · simp only [Option.some.injEq, Prod.mk.injEq] at h
          obtain ⟨hst, hbrk⟩ := h
          left
          rw [← hst, ← hbrk]
          exact ⟨rfl, himpr⟩
        · simp only [Option.some.injEq, Prod.mk.injEq] at h
          obtain ⟨hst, hbrk⟩ := h
          left
          rw [← hst, ← hbrk]
          exact ⟨rfl, himpr⟩
      · rename_i himpr
        simp only [Option.some.injEq, Prod.mk.injEq] at h
        obtain ⟨hst, hbrk⟩ := h
        right
        simp only [Bool.not_eq_true] at himpr
        refine ⟨hbrk.symm, ?_, ?_⟩
        · simp only [flipNotImproving]
          rw [if_pos hdelta]
          refine ⟨d, ?_⟩
          rw [hfd, himpr]
        · intro hsti
          rw [← hst]
          exact himpr
  · rename_i hdelta
    split at h
    · cases h
    · rename_i ns hns
      split at h
      · rename_i hsb
        split at h
        · simp only [Option.some.injEq, Prod.mk.injEq] at h
          obtain ⟨hst, hbrk⟩ := h
          left
          rw [← hst, ← hbrk]
          exact ⟨rfl, rfl⟩
        · simp only [Option.some.injEq, Prod.mk.injEq] at h
          obtain ⟨hst, hbrk⟩ := h
          left
          rw [← hst, ← hbrk]
          exact ⟨rfl, rfl⟩
      · rename_i hsb
        simp only [Option.some.injEq, Prod.mk.injEq] at h
        obtain ⟨hst, hbrk⟩ := h
        right
        refine ⟨hbrk.symm, ?_, ?_⟩
        · simp only [flipNotImproving]
          rw [if_neg hdelta]
          refine ⟨ns, hns, ?_⟩
          simp only [Bool.not_eq_true] at hsb
          exact hsb
        · intro hsti
          rw [← hst]
          exact hsti

/-- Conversely, a non-improving position lets the first-improvement loop
body run without error, without breaking and without setting
`improved`. -/
theorem expStep_of_notImproving (p : ProbData) (sol : Solution) (st : ExpState)
    (i : Nat) (hni : flipNotImproving p sol i) (hsti : st.improved = false) :
    ∃ st2, expStep p sol true st i = some (st2, false) ∧ st2.improved = false := by
  unfold expStep
  unfold flipNotImproving at hni
  by_cases hdelta : p.has_flip_delta_eval = true
  · rw [if_pos hdelta] at hni ⊢
    obtain ⟨d, hfd⟩ := hni
    rw [hfd]
    exact ⟨_, rfl, rfl⟩
  · rw [if_neg hdelta] at hni ⊢
    obtain ⟨ns, hns, hsb⟩ := hni
    rw [hns]
    dsimp only
    rw [if_neg (by simp [hsb])]
    exact ⟨st, rfl, hsti⟩

/-- If a first-improvement scan runs to completion with the final
`improved` flag off, every position it visited was non-improving. -/
theorem expLoop_false_forall (p : ProbData) (sol : Solution) :
    ∀ (l : List Nat) (st st2 : ExpState),
      expLoop p sol true st l = some st2 → st2.improved = false →
      ∀ i ∈ l, flipNotImproving p sol i := by
  intro l
  induction l with
  | nil =>
      intro st st2 h hf i hi
      simp at hi
  | cons a rest ih =>
      intro st st2 h hf i hi
      simp only [expLoop] at h
      cases hs : expStep p sol true st a with
      | none => rw [hs] at h; cases h
      | some pr =>
          obtain ⟨stA, brk⟩ := pr
          cases brk with
          | true =>
              rw [hs] at h
              dsimp only at h
              injection h with h2
              rcases expStep_first_cases p sol st stA a true hs with ⟨-, himp⟩ | ⟨hff, -⟩
              · rw [h2] at himp
                rw [himp] at hf
                cases hf
              · cases hff
          | false =>
              rw [hs] at h
              dsimp only at h
              rcases expStep_first_cases p sol st stA a false hs with ⟨hff, -⟩ | ⟨-, hni, -⟩
              · cases hff
              · rcases List.mem_cons.mp hi with hia | hirest
                · rw [hia]
                  exact hni
                · exact ih stA st2 h hf i hirest

/-- Conversely, if every position of the scan order is non-improving, a
first-improvement scan started with `improved` off completes with it
still off. -/
theorem expLoop_of_all_notImproving (p : ProbData) (sol : Solution) :
    ∀ (l : List Nat) (st : ExpState), st.improved = false →
      (∀ i ∈ l, flipNotImproving p sol i) →
      ∃ st2, expLoop p sol true st l = some st2 ∧ st2.improved = false := by
  intro l
  induction l with
  | nil =>
      intro st hst _
      exact ⟨st, rfl, hst⟩
  | cons a rest ih =>
      intro st hst hall
      obtain ⟨stA, hs, hstA⟩ := expStep_of_notImproving p sol st a (hall a (by simp)) hst
      obtain ⟨st2, hloop, hf⟩ := ih stA hstA (fun i hi => hall i (by simp [hi]))
      refine ⟨st2, ?_, hf⟩
      simp only [expLoop]
      rw [hs]
      exact hloop

/-- Anatomy of a no-improvement explorer return: the input comes back,
the solution was nonempty, and the loop finished with `improved` off. -/
theorem explorer_false_shape (p : ProbData) (sol s2 : Solution) (first : Bool)
    (ord : List Nat)
    (h : flip_neighbour_explorer p sol first ord = some (false, s2)) :
    s2 = sol ∧ ¬ sol.lst.length = 0 ∧
      ∃ st, expLoop p sol first ⟨false, 0, 0, 0, sol⟩
          (if first then ord else List.range sol.lst.length) = some st ∧
        st.improved = false := by
  unfold flip_neighbour_explorer at h
  split at h
  · cases h
  · rename_i hlen
    split at h
    · cases h
    · rename_i st hst
      cases himp : st.improved with
      | true =>
          rw [himp] at h
          simp only [if_true] at h
          split at h
          · split at h
            · cases h
            · rename_i ns hns
              simp only [Option.some.injEq, Prod.mk.injEq] at h
              obtain ⟨hb, -⟩ := h
              cases hb
          · simp only [Option.some.injEq, Prod.mk.injEq] at h
            obtain ⟨hb, -⟩ := h
            cases hb
      | false =>
          rw [himp] at h
          simp only [Bool.false_eq_true, if_false] at h
          simp only [Option.some.injEq, Prod.mk.injEq] at h
          exact ⟨h.2.symm, hlen, st, hst, himp⟩

/-- Converse assembly of a no-improvement explorer return. -/
theorem explorer_false_of_loop (p : ProbData) (sol : Solution) (first : Bool)
    (ord : List Nat) (st : ExpState)
    (hlen : ¬ sol.lst.length = 0)
    (hloop : expLoop p sol first ⟨false, 0, 0, 0, sol⟩
        (if first then ord else List.range sol.lst.length) = some st)
    (himp : st.improved = false) :
    flip_neighbour_explorer p sol first ord = some (false, sol) := by
  unfold flip_neighbour_explorer
  rw [if_neg hlen, hloop]
  dsimp only
  rw [himp]
  simp

/-- A first-improvement scan that reported no improvement reports no
improvement under any scan order covered by the first one. -/
theorem explorer_first_false_anyOrder (p : ProbData) (sol : Solution)
    (o1 o2 : List Nat) (hsub : ∀ i, i ∈ o2 → i ∈ o1)
    (h : flip_neighbour_explorer p sol true o1 = some (false, sol)) :
    flip_neighbour_explorer p sol true o2 = some (false, sol) := by
  obtain ⟨-, hlen, st, hloop, himp⟩ := explorer_false_shape p sol sol true o1 h
  rw [show (if (true : Bool) then o1 else List.range sol.lst.length) = o1 from rfl] at hloop
  have hall := expLoop_false_forall p sol o1 ⟨false, 0, 0, 0, sol⟩ st hloop himp
  obtain ⟨st2, hloop2, himp2⟩ := expLoop_of_all_notImproving p sol o2 ⟨false, 0, 0, 0, sol⟩
      rfl (fun i hi => hall i (hsub i hi))
  refine explorer_false_of_loop p sol true o2 st2 hlen ?_ himp2
  rw [show (if (true : Bool) then o2 else List.range sol.lst.length) = o2 from rfl]
  exact hloop2

/-- A committed delta flip keeps the solution length. -/
theorem flip_with_delta_length (p : ProbData) (sol ns : Solution) (i : Nat) (d : Int)
    (h : p.flip_with_delta sol i d = some ns) : ns.lst.length = sol.lst.length := by
  cases p with
  | oneMax n =>
      simp only [ProbData.flip_with_delta] at h
      split at h
      · cases h
      · injection h with h2
        rw [← h2]
        simp
  | knapsack n c items => simp [ProbData.flip_with_delta] at h
  | numberPartitioning n a => simp [ProbData.flip_with_delta] at h

/-- A flipped, re-evaluated copy keeps the solution length. -/
theorem flipFullEval_length (p : ProbData) (sol ns : Solution) (i : Nat)
    (h : flipFullEval p sol i = some ns) : ns.lst.length = sol.lst.length := by
  unfold flipFullEval at h
  split at h
  · cases h
  · rename_i s1 hs1
    obtain ⟨hlst, -, -⟩ := full_eval_props p s1 ns h
    unfold flipSol at hs1
    split at hs1
    · cases hs1
    · injection hs1 with h2
      rw [hlst, ← h2]
      simp

/-- A loop-body step leaves `best_sol` alone or replaces it by a
flipped, fully evaluated copy of the input. -/
theorem expStep_best_sol (p : ProbData) (sol : Solution) (first : Bool)
    (st st2 : ExpState) (i : Nat) (brk : Bool)
    (h : expStep p sol first st i = some (st2, brk)) :
    st2.best_sol = st.best_sol ∨
      ∃ ns, flipFullEval p sol i = some ns ∧ st2.best_sol = ns := by
  unfold expStep at h
  split at h
  · split at h
    · cases h
    · split at h
      · split at h
        · simp only [Option.some.injEq, Prod.mk.injEq] at h
          obtain ⟨hst, -⟩ := h
          left
          rw [← hst]
        · simp only [Option.some.injEq, Prod.mk.injEq] at h
          obtain ⟨hst, -⟩ := h
          left
          rw [← hst]
      · simp only [Option.some.injEq, Prod.mk.injEq] at h
        obtain ⟨hst, -⟩ := h
        left
        rw [← hst]
  · split at h
    · cases h
    · rename_i ns hns
      split at h
      · split at h
        · simp only [Option.some.injEq, Prod.mk.injEq] at h
          obtain ⟨hst, -⟩ := h
          right
          exact ⟨ns, hns, by rw [← hst]⟩
        · simp only [Option.some.injEq, Prod.mk.injEq] at h
          obtain ⟨hst, -⟩ := h
          left
          rw [← hst]
      · simp only [Option.some.injEq, Prod.mk.injEq] at h
        obtain ⟨hst, -⟩ := h
        left
        rw [← hst]

/-- Through a whole scan, `best_sol` keeps the input's length. -/
theorem expLoop_best_sol_length (p : ProbData) (sol : Solution) (first : Bool) :
    ∀ (l : List Nat) (st st2 : ExpState),
      expLoop p sol first st l = some st2 →
      st.best_sol.lst.length = sol.lst.length →
      st2.best_sol.lst.length = sol.lst.length := by
  intro l
  induction l with
  | nil =>
      intro st st2 h hlen
      simp only [expLoop] at h
      injection h with h2
      rw [← h2]
      exact hlen
  | cons a rest ih =>
      intro st st2 h hlen
      simp only [expLoop] at h
      cases hs : expStep p sol first st a with
      | none => rw [hs] at h; cases h
      | some pr =>
          obtain ⟨stA, brk⟩ := pr
          have hinv : stA.best_sol.lst.length = sol.lst.length := by
            rcases expStep_best_sol p sol first st stA a brk hs with hsame | ⟨ns, hns, hbs⟩
            · rw [hsame]
              exact hlen
            · rw [hbs]
              exact flipFullEval_length p sol ns a hns
          cases brk with
          | true =>
              rw [hs] at h
              dsimp only at h
              injection h with h2
              rw [← h2]
              exact hinv
          | false =>
              rw [hs] at h
              dsimp only at h
              exact ih stA st2 h hinv

/-- The explorer returns a solution of the input's length. -/
theorem explorer_length (p : ProbData) (sol s2 : Solution) (first b : Bool)
    (ord : List Nat)
    (h : flip_neighbour_explorer p sol first ord = some (b, s2)) :
    s2.lst.length = sol.lst.length := by
  unfold flip_neighbour_explorer at h
  split at h
  · cases h
  · split at h
    · cases h
    · rename_i st hst
      split at h
      · split at h
        · split at h
          · cases h
          · rename_i ns hns
            simp only [Option.some.injEq, Prod.mk.injEq] at h
            obtain ⟨-, hs2⟩ := h
            rw [← hs2]
            exact flip_with_delta_length p sol ns st.best_i st.delta_fitness hns
        · simp only [Option.some.injEq, Prod.mk.injEq] at h
          obtain ⟨-, hs2⟩ := h
          rw [← hs2]
          exact expLoop_best_sol_length p sol first _ ⟨false, 0, 0, 0, sol⟩ st hst rfl
      · simp only [Option.some.injEq, Prod.mk.injEq] at h
        obtain ⟨-, hs2⟩ := h
        rw [← hs2]

/-- The hill climber's returned solution has the initial solution's
length and was certified non-improvable by its last explorer call. -/
theorem hcLoop_last (p : ProbData) (first : Bool) (orders : Nat → List Nat) :
    ∀ (fuel k : Nat) (sol res : Solution),
      hcLoop p first orders k sol fuel = some res →
      res.lst.length = sol.lst.length ∧
      ∃ k2, flip_neighbour_explorer p res first (orders k2) = some (false, res) := by
  intro fuel
  induction fuel with
  | zero =>
      intro k sol res h
      simp [hcLoop] at h
  | succ fuel ih =>
      intro k sol res h
      simp only [hcLoop] at h
      cases hx : flip_neighbour_explorer p sol first (orders k) with
      | none => rw [hx] at h; cases h
      | some pr =>
          obtain ⟨impr, sol2⟩ := pr
          rw [hx] at h
          dsimp only at h
          cases impr with
          | true =>
              rw [if_pos rfl] at h
              obtain ⟨hlen, hk⟩ := ih (k + 1) sol2 res h
              refine ⟨?_, hk⟩
              rw [hlen]
              exact explorer_length p sol sol2 first true (orders k) hx
          | false =>
              rw [if_neg (by simp)] at h
              injection h with h2
              have hs2 : sol2 = sol := (explorer_false_shape p sol sol2 first (orders k) hx).1
              rw [← h2, hs2]
              rw [hs2] at hx
              exact ⟨rfl, k, hx⟩

/-- C6 counterexample: with best-improvement mode on OneMax, the hill
climber accepts `[0, 1]` as converged (the explorer's last-index verdict
is `False`), yet a single-position flip still improves it — position 0
improves per `flip_delta_eval`, and flipping position 1 (fitness 0) is
even "strictly better" under the problem's own inherited comparison. So
the hill climber's result is not a flip-local optimum, even though
re-running the explorer on it reports no improvement. -/
theorem c6_cex_hc_result_still_improvable :
    hc (ProbData.oneMax 2) false (fun _ => []) ⟨[0, 1], 1, false⟩ 3
      = some ⟨[0, 1], 1, false⟩ ∧
    ProbData.flip_delta_eval (ProbData.oneMax 2) ⟨[0, 1], 1, false⟩ 0
      = some (true, 1) ∧
    ProbData.strictly_better (ProbData.oneMax 2) (oneMaxFitness [0, 0]) 1 = true := by
  decide

/-- C6 amended: every solution the hill climber returns makes the
explorer report `found_improvement = False` again — under any fresh
shuffle order in first-improvement mode (the verdict is order
independent), and deterministically in best-improvement mode. This is
the operational half of the claim; it does not entail the absence of an
improving flip (see the counterexample). -/
theorem c6_amended_hc_reexploration_reports_false (p : ProbData) (first : Bool)
    (orders : Nat → List Nat) (init_sol res : Solution) (fuel : Nat) (ord2 : List Nat)
    (hrun : hc p first orders init_sol fuel = some res)
    (hords : first = true → ∀ k, (orders k).Perm (List.range init_sol.lst.length))
    (hord2 : first = true → ord2.Perm (List.range init_sol.lst.length)) :
    flip_neighbour_explorer p res first ord2 = some (false, res) := by
  obtain ⟨hlen, k2, hk2⟩ := hcLoop_last p first orders fuel 0 init_sol res hrun
  cases first with
  | false =>
      have hsame : flip_neighbour_explorer p res false ord2
          = flip_neighbour_explorer p res false (orders k2) := rfl
      rw [hsame]
      exact hk2
  | true =>
      refine explorer_first_false_anyOrder p res (orders k2) ord2 ?_ hk2
      intro i hi
      have h1 : i ∈ List.range init_sol.lst.length := ((hord2 rfl).mem_iff).mp hi
      have h2 : i ∈ List.range res.lst.length := by
        rw [hlen]
        exact h1
      refine ((hords rfl k2).mem_iff).mpr ?_
      exact h1

/-- Witness for C6 at a concrete best-improvement hill climb. -/
theorem c6_witness :
    flip_neighbour_explorer (ProbData.oneMax 2) ⟨[0, 1], 1, false⟩ false []
      = some (false, ⟨[0, 1], 1, false⟩) :=
  c6_amended_hc_reexploration_reports_false (ProbData.oneMax 2) false (fun _ => [])
    ⟨[0, 1], 1, false⟩ ⟨[0, 1], 1, false⟩ 3 [] (by decide)
    (fun hcontra => absurd hcontra (by decide))
    (fun hcontra => absurd hcontra (by decide))
